import Mathlib

/-!
# Verification of the tutorial kernel modules

Shallow embedding of the file operations of

* `src/char-driver/main.c` (`device_read`, `device_write`, `driver_init`),
* `src/miscdevice-driver/main.c` (`misc_read`, `misc_write`, `misc_init`),

followed by the theorems about the behaviour the specification states for them.

Conventions of the embedding:

* a `char` is a `UInt8`; the static arrays `msg` are lists of bytes (the C type
  fixes their length to 1024, which theorems take as a hypothesis on the state);
* `size_t` values are `Nat`, `loff_t`/`ssize_t`/`int` values are `Int`; every
  conversion between the signed and the unsigned 64-bit types that the C code
  performs is written out with an explicit reduction modulo `2^64`;
* the kernel primitives `get_user`, `copy_to_user`, `copy_from_user` are not
  part of the repository; they are modelled after their documented kernel
  contract, with the user memory given as data (`UserSrc`, `UserDst`).
-/

set_option autoImplicit false

/-! ## Kernel side: user memory and copy primitives -/

/-- The errno value `EFAULT` of the kernel headers. -/
def EFAULT : Int := 14

/-- User memory behind a `const char __user *` pointer: `src k` is the byte at
offset `k` from the pointer, or `none` when touching that byte faults. -/
abbrev UserSrc := Nat → Option UInt8

/-- User memory behind a `char __user *` destination pointer: the number of
leading bytes that can be stored before the first faulting byte. -/
structure UserDst where
  writable : Nat

/-- User source memory holding the bytes `bytes` (and nothing readable after them). -/
def userOf (bytes : List UInt8) : UserSrc := fun k => bytes[k]?

/-- Kernel `get_user(x, ptr)`: yields the status (0 or `-EFAULT`) and the value
stored in `x`; on a fault the kernel sets `x` to zero. -/
def get_user (buffer : UserSrc) (i : Nat) : Int × UInt8 :=
  match buffer i with
  | some b => (0, b)
  | none => (-EFAULT, 0)

/-- Kernel `copy_to_user(to, from, n)`: the number of bytes that could NOT be
copied (zero on success); the bytes before the first faulting one are stored. -/
def copy_to_user (dst : UserDst) (n : Nat) : Nat := n - min n dst.writable

/-- Conversion of an integer to a signed 64-bit value (`loff_t`, `ssize_t`). -/
def wrapS64 (x : Int) : Int :=
  (x + 9223372036854775808) % 18446744073709551616 - 9223372036854775808

/-- Conversion of an integer to `size_t` (unsigned 64-bit). -/
def wrapU64 (x : Int) : Nat := (x % 18446744073709551616).toNat

/-- Conversion of an integer to `int` (signed 32-bit). -/
def wrapS32 (x : Int) : Int := (x + 2147483648) % 4294967296 - 2147483648

/-- The byte of the array `msg` at a C index; `none` stands for an access
outside the array (the index is negative or at least the array length). -/
def msgAt (msg : List UInt8) (i : Int) : Option UInt8 :=
  if i < 0 then none else msg[i.toNat]?

/-- The indices of `msg` touched when `n` bytes are copied starting at the
pointer `msg + start`. -/
def readIndices (start : Int) (n : Nat) : List Int :=
  (List.range n).map (fun (k : Nat) => start + (k : Int))

/-- The observable result of a `read` file operation. -/
structure ReadOut where
  /-- the `ssize_t` return value -/
  ret : Int
  /-- the value of the file offset after the call -/
  offset : Int
  /-- the indices of `msg` whose bytes were stored in the user buffer -/
  idx : List Int
  /-- the bytes stored in the user buffer (`none`: a byte from outside `msg`) -/
  data : List (Option UInt8)

/-! ## The character driver (`src/char-driver/main.c`) -/

namespace CharDriver

/-- Source constant `#define BUF_LEN 1024`. -/
def BUF_LEN : Nat := 1024

/-- The two globals of the driver: `static char msg[BUF_LEN]` and `static int pos`. -/
structure State where
  msg : List UInt8
  pos : Int

/-- The `for` loop of `device_write`, entered with loop counter `i`:
`for (; i < length && i < BUF_LEN - 1; i++) { get_user(msg[i], &buffer[i]); pos++; }`.
The status returned by `get_user` is discarded, as in the source. Yields the
final value of `i` and the state. -/
def device_write_loop (buffer : UserSrc) (length : Nat) (i : Nat) (st : State) : Nat × State :=
  if i < length ∧ i < BUF_LEN - 1 then
    device_write_loop buffer length (i + 1)
      { msg := st.msg.set i (get_user buffer i).2, pos := st.pos + 1 }
  else
    (i, st)
termination_by BUF_LEN - 1 - i
decreasing_by omega

/-- Source function `device_write(file, buffer, length, offset)`: the return
value and the new state. The parameter `offset` is not used by the source. -/
def device_write (st : State) (buffer : UserSrc) (length : Nat) (_offset : Int) : Int × State :=
  let r := device_write_loop buffer length 0 { st with pos := 0 }
  ((r.1 : Int), { r.2 with msg := r.2.msg.set r.2.pos.toNat 0 })

/-- Source function `device_read(file, buffer, length, offset)` on the state
`st`, where `offset` is the value of `*offset` at entry: the observable result and the
state after the call (the source assigns neither `msg` nor `pos`). -/
def device_read (st : State) (buffer : UserDst) (length : Nat) (offset : Int) : ReadOut × State :=
  let remaining : Nat := wrapU64 ((BUF_LEN : Int) - offset)
  if offset ≥ (BUF_LEN : Int) ∨ length = 0 then
    ({ ret := 0, offset := offset, idx := [], data := [] }, st)
  else
    let length := if length > remaining then remaining else length
    let left := copy_to_user buffer length
    if left ≠ 0 then
      ({ ret := -EFAULT, offset := offset,
         idx := readIndices offset (length - left),
         data := (readIndices offset (length - left)).map (msgAt st.msg) }, st)
    else
      ({ ret := wrapS64 length, offset := wrapS64 (offset + length),
         idx := readIndices offset length,
         data := (readIndices offset length).map (msgAt st.msg) }, st)

/-- The results of the registration calls made by `driver_init`: the `int`
returned by `alloc_chrdev_region` and `cdev_add`, and the error code carried by
the pointer returned by `class_create` and `device_create` (0: a valid pointer). -/
structure InitCalls where
  alloc_chrdev_region : Int
  cdev_add : Int
  class_create : Int
  device_create : Int

/-- Source function `driver_init()` of the character driver: every registration
result is discarded and 0 is returned. -/
def driver_init (_calls : InitCalls) : Int := 0

end CharDriver

/-! ## The misc driver (`src/miscdevice-driver/main.c`) -/

namespace MiscDriver

/-- Source constant `#define MSG_SIZE 1024`. -/
def MSG_SIZE : Nat := 1024

/-- The initializer of `static char msg[MSG_SIZE] = "Hello from misc device!\n"`:
the 24 characters of the literal, the rest of the array zero-filled. -/
def initMsg : List UInt8 :=
  [72, 101, 108, 108, 111, 32, 102, 114, 111, 109, 32, 109, 105, 115, 99, 32,
   100, 101, 118, 105, 99, 101, 33, 10] ++ List.replicate (MSG_SIZE - 24) 0

/-- C `strlen`: the index of the first null byte. -/
def strlen : List UInt8 → Nat
  | [] => 0
  | c :: cs => if c = 0 then 0 else strlen cs + 1

/-- The bytes of the user source that can be read before the first fault,
looking at the offsets `i, i+1, ..., i+n-1`. -/
def readableFrom (src : UserSrc) (i : Nat) : Nat → List UInt8
  | 0 => []
  | n + 1 =>
    match src i with
    | some b => b :: readableFrom src (i + 1) n
    | none => []

/-- Kernel `copy_from_user(to, from, n)` with `to` the start of the array `msg`:
the number of bytes that could not be copied, and the array afterwards. The
readable leading bytes are stored; when some byte could not be copied the kernel
pads the destination with zero bytes up to the requested size `n`. -/
def copy_from_user (msg : List UInt8) (src : UserSrc) (n : Nat) : Nat × List UInt8 :=
  let got := readableFrom src 0 n
  (n - got.length, got ++ List.replicate (n - got.length) 0 ++ msg.drop n)

/-- The observable result of the `write` file operation of the misc driver. -/
structure WriteOut where
  /-- the `ssize_t` return value -/
  ret : Int
  /-- the value of `*ppos` after the call -/
  ppos : Int
  /-- the array `msg` after the call -/
  msg : List UInt8

/-- Source function `misc_write(file, buf, count, ppos)` on the array `msg`, where `ppos` is the
value of `*ppos` at entry. -/
def misc_write (msg : List UInt8) (buf : UserSrc) (count : Nat) (ppos : Int) : WriteOut :=
  let count := if count > MSG_SIZE - 1 then MSG_SIZE - 1 else count
  let r := copy_from_user msg buf count
  if r.1 ≠ 0 then
    { ret := -EFAULT, ppos := ppos, msg := r.2 }
  else
    { ret := wrapS64 count, ppos := wrapS64 (ppos + count), msg := r.2.set count 0 }

/-- Source function `misc_read(file, buf, count, ppos)` on the array `msg`, where `ppos` is the
value of `*ppos` at entry. The source does not assign `msg`. -/
def misc_read (msg : List UInt8) (buf : UserDst) (count : Nat) (ppos : Int) : ReadOut :=
  if count = 0 then
    { ret := 0, offset := ppos, idx := [], data := [] }
  else
    let len : Int := wrapS32 (strlen msg)
    if ppos ≥ len then
      { ret := 0, offset := 0, idx := [], data := [] }
    else
      let bytes_to_copy : Nat := wrapU64 (len - ppos)
      let left := copy_to_user buf bytes_to_copy
      if left ≠ 0 then
        { ret := -EFAULT, offset := ppos,
          idx := readIndices ppos (bytes_to_copy - left),
          data := (readIndices ppos (bytes_to_copy - left)).map (msgAt msg) }
      else
        { ret := wrapS64 bytes_to_copy, offset := wrapS64 (ppos + bytes_to_copy),
          idx := readIndices ppos bytes_to_copy,
          data := (readIndices ppos bytes_to_copy).map (msgAt msg) }

/-- The contents of `msg` reachable from the initial content by calls of
`misc_write` (with any user memory, count and offset, faulting or not). -/
inductive Reachable : List UInt8 → Prop
  | init : Reachable initMsg
  | write (msg : List UInt8) (buf : UserSrc) (count : Nat) (ppos : Int) :
      Reachable msg → Reachable (misc_write msg buf count ppos).msg

/-- Source function `misc_init()`, given the value `err` returned by `misc_register`. -/
def misc_init (err : Int) : Int :=
  if err ≠ 0 then err else 0

end MiscDriver

/-! ## Helper lemmas -/

theorem wrapS64_of_small (x : Int) (h0 : 0 ≤ x) (h1 : x < 9223372036854775808) :
    wrapS64 x = x := by
  unfold wrapS64; omega

theorem wrapU64_of_small (x : Int) (h0 : 0 ≤ x) (h1 : x < 18446744073709551616) :
    wrapU64 x = x.toNat := by
  unfold wrapU64; congr 1; omega

theorem wrapS32_of_small (x : Int) (h0 : 0 ≤ x) (h1 : x < 2147483648) :
    wrapS32 x = x := by
  unfold wrapS32; omega

namespace CharDriver

/-- The loop of `device_write` entered at `i ≤ min length (BUF_LEN - 1)`: it
stops at `min length (BUF_LEN - 1)`, has incremented `pos` once per iteration,
and has stored the value produced by `get_user` at every index it visited. -/
theorem device_write_loop_spec (buffer : UserSrc) (length : Nat) :
    ∀ (k i : Nat) (st : State), k = BUF_LEN - 1 - i → i ≤ min length (BUF_LEN - 1) →
      (device_write_loop buffer length i st).1 = min length (BUF_LEN - 1) ∧
      (device_write_loop buffer length i st).2.pos
        = st.pos + ((min length (BUF_LEN - 1) - i : Nat) : Int) ∧
      (device_write_loop buffer length i st).2.msg.length = st.msg.length ∧
      ∀ j : Nat, (device_write_loop buffer length i st).2.msg[j]? =
        if i ≤ j ∧ j < min length (BUF_LEN - 1) ∧ j < st.msg.length
        then some (get_user buffer j).2 else st.msg[j]? := by
  intro k
  induction k with
  | zero =>
    intro i st hk hi
    rw [device_write_loop]
    have hcond : ¬ (i < length ∧ i < BUF_LEN - 1) := by omega
    rw [if_neg hcond]
    refine ⟨by simp only; omega, by simp only; omega, rfl, ?_⟩
    intro j
    have : ¬ (i ≤ j ∧ j < min length (BUF_LEN - 1) ∧ j < st.msg.length) := by omega
    rw [if_neg this]
  | succ k ih =>
    intro i st hk hi
    rw [device_write_loop]
    by_cases hcond : i < length ∧ i < BUF_LEN - 1
    · rw [if_pos hcond]
      obtain ⟨h1, h2, h3, h4⟩ := ih (i + 1)
        { msg := st.msg.set i (get_user buffer i).2, pos := st.pos + 1 } (by omega) (by omega)
      refine ⟨h1, ?_, ?_, ?_⟩
      · rw [h2]; simp only; omega
      · rw [h3]; simp
      · intro j
        rw [h4 j]
        simp only [List.length_set, List.getElem?_set]
        by_cases hj : i = j
        · subst hj
          by_cases hl : i < st.msg.length
          · have a1 : ¬ (i + 1 ≤ i ∧ i < min length (BUF_LEN - 1) ∧ i < st.msg.length) := by omega
            have a2 : i ≤ i ∧ i < min length (BUF_LEN - 1) ∧ i < st.msg.length := by omega
            simp [a1, a2, hl]
          · have a1 : ¬ (i + 1 ≤ i ∧ i < min length (BUF_LEN - 1) ∧ i < st.msg.length) := by omega
            have a2 : ¬ (i ≤ i ∧ i < min length (BUF_LEN - 1) ∧ i < st.msg.length) := by omega
            rw [if_neg a1, if_neg a2]
            simp only [hl, if_false]
            exact (List.getElem?_eq_none (by omega)).symm
        · by_cases hc : i + 1 ≤ j ∧ j < min length (BUF_LEN - 1) ∧ j < st.msg.length
          · have a2 : i ≤ j ∧ j < min length (BUF_LEN - 1) ∧ j < st.msg.length := by omega
            rw [if_pos hc, if_pos a2]
          · have a2 : ¬ (i ≤ j ∧ j < min length (BUF_LEN - 1) ∧ j < st.msg.length) := by omega
            rw [if_neg hc, if_neg a2]
            simp [hj]
    · rw [if_neg hcond]
      refine ⟨by simp only; omega, by simp only; omega, rfl, ?_⟩
      intro j
      have : ¬ (i ≤ j ∧ j < min length (BUF_LEN - 1) ∧ j < st.msg.length) := by omega
      rw [if_neg this]

/-- The return value of `device_write` is `min length (BUF_LEN - 1)`. -/
theorem device_write_ret (st : State) (buffer : UserSrc) (length : Nat) (offset : Int) :
    (device_write st buffer length offset).1 = ((min length (BUF_LEN - 1) : Nat) : Int) := by
  have h := (device_write_loop_spec buffer length (BUF_LEN - 1 - 0) 0 { st with pos := 0 }
    rfl (Nat.zero_le _)).1
  simp only [device_write, h]

/-- After `device_write`, `pos` is `min length (BUF_LEN - 1)`. -/
theorem device_write_pos (st : State) (buffer : UserSrc) (length : Nat) (offset : Int) :
    (device_write st buffer length offset).2.pos = ((min length (BUF_LEN - 1) : Nat) : Int) := by
  have h := (device_write_loop_spec buffer length (BUF_LEN - 1 - 0) 0 { st with pos := 0 }
    rfl (Nat.zero_le _)).2.1
  simp only [device_write, h]
  simp

/-- The array `msg` keeps its length across `device_write`. -/
theorem device_write_length (st : State) (buffer : UserSrc) (length : Nat) (offset : Int) :
    (device_write st buffer length offset).2.msg.length = st.msg.length := by
  have h := (device_write_loop_spec buffer length (BUF_LEN - 1 - 0) 0 { st with pos := 0 }
    rfl (Nat.zero_le _)).2.2.1
  simp only [device_write, List.length_set, h]

/-- The content of `msg` after `device_write`, index by index: the null byte at
`min length (BUF_LEN - 1)`, below it what `get_user` stored, above it the old byte. -/
theorem device_write_getElem (st : State) (buffer : UserSrc) (length : Nat) (offset : Int)
    (j : Nat) (hj : j < st.msg.length) :
    (device_write st buffer length offset).2.msg[j]? =
      if j = min length (BUF_LEN - 1) then some 0
      else if j < min length (BUF_LEN - 1) then some (get_user buffer j).2
      else st.msg[j]? := by
  obtain ⟨-, h2, h3, h4⟩ := device_write_loop_spec buffer length (BUF_LEN - 1 - 0) 0
    { st with pos := 0 } rfl (Nat.zero_le _)
  simp only [device_write, h2, List.getElem?_set, h3, h4 j]
  simp only [zero_add, Nat.sub_zero, Int.toNat_ofNat, Nat.zero_le, true_and]
  by_cases h : min length (BUF_LEN - 1) = j
  · have h' : j = min length (BUF_LEN - 1) := h.symm
    simp [h, hj]
  · have h' : ¬ j = min length (BUF_LEN - 1) := fun e => h e.symm
    simp [h, h', hj]

end CharDriver

theorem readIndices_length (start : Int) (n : Nat) : (readIndices start n).length = n := by
  simp [readIndices]

/-- Copying `n` bytes from `msg + c` with `0 ≤ c` and `c + n` inside the array
delivers exactly the slice `msg[c .. c + n)`. -/
theorem map_msgAt_readIndices (msg : List UInt8) (c : Int) (n : Nat) (h0 : 0 ≤ c)
    (h1 : c.toNat + n ≤ msg.length) :
    (readIndices c n).map (msgAt msg) = ((msg.drop c.toNat).take n).map some := by
  apply List.ext_getElem?
  intro i
  by_cases hi : i < n
  · have e1 : c + (i : Int) = ((c.toNat + i : Nat) : Int) := by omega
    have e2 : ¬ (c + (i : Int) < 0) := by omega
    simp only [readIndices, List.map_map, List.getElem?_map, List.getElem?_range hi,
      Option.map_some', Function.comp_apply, msgAt, if_neg e2, List.getElem?_take_of_lt hi,
      List.getElem?_drop]
    rw [e1, Int.toNat_ofNat]
    rw [List.getElem?_eq_getElem (by omega : c.toNat + i < msg.length)]
    rfl
  · rw [List.getElem?_eq_none (by simp [readIndices]; omega),
      List.getElem?_eq_none (by simp; omega)]

namespace CharDriver

/-- End of stream: at or past the end of the buffer, or when nothing is asked
for, `device_read` returns 0, delivers nothing and keeps the offset. -/
theorem device_read_eof (st : State) (buffer : UserDst) (length : Nat) (offset : Int)
    (h : offset ≥ (BUF_LEN : Int) ∨ length = 0) :
    device_read st buffer length offset
      = ({ ret := 0, offset := offset, idx := [], data := [] }, st) := by
  unfold device_read
  simp only [if_pos h]

/-- The length handed to `copy_to_user` by `device_read` when the offset lies
inside the buffer. -/
theorem device_read_clamp (length : Nat) (offset : Int) (h0 : 0 ≤ offset)
    (h1 : offset < (BUF_LEN : Int)) :
    (if length > wrapU64 ((BUF_LEN : Int) - offset) then wrapU64 ((BUF_LEN : Int) - offset)
      else length) = min length (BUF_LEN - offset.toNat) := by
  have hr : wrapU64 ((BUF_LEN : Int) - offset) = BUF_LEN - offset.toNat := by
    unfold BUF_LEN at h1 ⊢
    rw [wrapU64_of_small _ (by omega) (by omega)]
    omega
  rw [hr]
  split <;> omega

/-- A fault-free `device_read` at an offset inside the buffer. -/
theorem device_read_ok (st : State) (buffer : UserDst) (length : Nat) (offset : Int)
    (h0 : 0 ≤ offset) (h1 : offset < (BUF_LEN : Int)) (hl : length ≠ 0)
    (hcopy : copy_to_user buffer (min length (BUF_LEN - offset.toNat)) = 0) :
    device_read st buffer length offset
      = ({ ret := ((min length (BUF_LEN - offset.toNat) : Nat) : Int),
           offset := offset + ((min length (BUF_LEN - offset.toNat) : Nat) : Int),
           idx := readIndices offset (min length (BUF_LEN - offset.toNat)),
           data := (readIndices offset (min length (BUF_LEN - offset.toNat))).map
             (msgAt st.msg) }, st) := by
  have hc : ¬ (offset ≥ (BUF_LEN : Int) ∨ length = 0) := by omega
  unfold device_read
  simp only [if_neg hc, device_read_clamp length offset h0 h1, hcopy, ne_eq, not_true_eq_false,
    if_false]
  have hb : min length (BUF_LEN - offset.toNat) ≤ 1024 := by unfold BUF_LEN; omega
  have hb2 : offset < 1024 := h1
  rw [wrapS64_of_small _ (by omega) (by omega), wrapS64_of_small _ (by omega) (by omega)]

/-- A faulting `device_read` at an offset inside the buffer. -/
theorem device_read_fault (st : State) (buffer : UserDst) (length : Nat) (offset : Int)
    (h0 : 0 ≤ offset) (h1 : offset < (BUF_LEN : Int)) (hl : length ≠ 0)
    (hcopy : copy_to_user buffer (min length (BUF_LEN - offset.toNat)) ≠ 0) :
    device_read st buffer length offset
      = ({ ret := -EFAULT, offset := offset,
           idx := readIndices offset (min length (BUF_LEN - offset.toNat)
             - copy_to_user buffer (min length (BUF_LEN - offset.toNat))),
           data := (readIndices offset (min length (BUF_LEN - offset.toNat)
             - copy_to_user buffer (min length (BUF_LEN - offset.toNat)))).map
             (msgAt st.msg) }, st) := by
  have hc : ¬ (offset ≥ (BUF_LEN : Int) ∨ length = 0) := by omega
  unfold device_read
  simp only [if_neg hc, device_read_clamp length offset h0 h1, ne_eq, hcopy, not_false_eq_true,
    if_true]

end CharDriver

/-! ## The character driver: `device_write` -/

namespace CharDriver

/-- C1. For every user buffer whose first `min length (BUF_LEN - 1)` bytes are
readable without fault, every `length` and every file offset, `device_write`
returns `n = min length (BUF_LEN - 1)`, sets `pos` to `n`, and leaves
`msg[i] = buffer[i]` for every `i < n`; the return value is `length` itself
when `length ≤ 1023` and `1023` when `length > 1023`. -/
theorem device_write_copies_clamped (st : State) (buffer : UserSrc) (length : Nat)
    (offset : Int) (hlen : st.msg.length = BUF_LEN)
    (hsrc : ∀ i, i < min length (BUF_LEN - 1) → (buffer i).isSome = true) :
    (device_write st buffer length offset).1 = ((min length (BUF_LEN - 1) : Nat) : Int) ∧
    (device_write st buffer length offset).2.pos = ((min length (BUF_LEN - 1) : Nat) : Int) ∧
    (∀ i, i < min length (BUF_LEN - 1) →
      (device_write st buffer length offset).2.msg[i]? = buffer i) ∧
    (length ≤ 1023 → (device_write st buffer length offset).1 = (length : Int)) ∧
    (length > 1023 → (device_write st buffer length offset).1 = 1023) := by
  refine ⟨device_write_ret .., device_write_pos .., ?_, ?_, ?_⟩
  · intro i hi
    have hi' : i < st.msg.length := by rw [hlen]; unfold BUF_LEN at hi ⊢; omega
    rw [device_write_getElem st buffer length offset i hi', if_neg (by omega), if_pos hi]
    have := hsrc i hi
    unfold get_user
    cases hb : buffer i with
    | none => rw [hb] at this; cases this
    | some b => rfl
  · intro h
    rw [device_write_ret]
    unfold BUF_LEN
    congr 1
    omega
  · intro h
    rw [device_write_ret]
    unfold BUF_LEN
    have : min length (1024 - 1) = 1023 := by omega
    rw [this]; rfl

/-- C1, concrete scenario: writing the five bytes of "hello" with `length = 5`
into a zero-filled buffer returns 5, sets `pos` to 5 and stores "hello" in
`msg[0..5)`. -/
theorem device_write_copies_clamped_witness :
    (device_write ⟨List.replicate 1024 0, 0⟩ (userOf [104, 101, 108, 108, 111]) 5 0).1 = 5 ∧
    (device_write ⟨List.replicate 1024 0, 0⟩ (userOf [104, 101, 108, 108, 111]) 5 0).2.pos = 5 ∧
    (device_write ⟨List.replicate 1024 0, 0⟩ (userOf [104, 101, 108, 108, 111]) 5 0).2.msg.take 5
      = [104, 101, 108, 108, 111] := by
  have hsrc : ∀ i, i < min 5 (BUF_LEN - 1) →
      ((userOf [104, 101, 108, 108, 111]) i).isSome = true := by
    intro i hi
    have hi5 : i < 5 := by unfold BUF_LEN at hi; omega
    interval_cases i <;> rfl
  obtain ⟨h1, h2, h3, h4, -⟩ := device_write_copies_clamped ⟨List.replicate 1024 0, 0⟩
    (userOf [104, 101, 108, 108, 111]) 5 0 (List.length_replicate 1024 0) hsrc
  refine ⟨h4 (by decide), ?_, ?_⟩
  · rw [h2]; decide
  · apply List.ext_getElem?
    intro i
    by_cases hi : i < 5
    · rw [List.getElem?_take_of_lt hi, h3 i (by unfold BUF_LEN; omega)]
      rfl
    · rw [List.getElem?_take_eq_none (by omega)]
      exact (List.getElem?_eq_none (by simp; omega)).symm

/-- C2. After every `device_write`, for any prior state of the 1024-byte buffer,
any user memory (readable or faulting) and any `length`:
`0 ≤ pos ≤ BUF_LEN - 1`, `msg[pos]` is the null byte, and `msg` still has
exactly `BUF_LEN` bytes. -/
theorem device_write_invariant (st : State) (buffer : UserSrc) (length : Nat)
    (offset : Int) (hlen : st.msg.length = BUF_LEN) :
    0 ≤ (device_write st buffer length offset).2.pos ∧
    (device_write st buffer length offset).2.pos ≤ (BUF_LEN : Int) - 1 ∧
    (device_write st buffer length offset).2.msg[(device_write st buffer length offset).2.pos.toNat]?
      = some 0 ∧
    (device_write st buffer length offset).2.msg.length = BUF_LEN := by
  have hp := device_write_pos st buffer length offset
  refine ⟨by rw [hp]; omega, by rw [hp]; unfold BUF_LEN; omega, ?_,
    by rw [device_write_length, hlen]⟩
  rw [hp, Int.toNat_ofNat,
    device_write_getElem st buffer length offset _ (by rw [hlen]; unfold BUF_LEN; omega),
    if_pos rfl]

/-- C2, concrete scenario: writing 2000 bytes of 'x' over a buffer full of
stale bytes returns 1023, and `msg[1023]` is the null byte. -/
theorem device_write_invariant_witness :
    (device_write ⟨List.replicate 1024 65, 7⟩ (fun _ => some 120) 2000 0).1 = 1023 ∧
    (device_write ⟨List.replicate 1024 65, 7⟩ (fun _ => some 120) 2000 0).2.pos = 1023 ∧
    (device_write ⟨List.replicate 1024 65, 7⟩ (fun _ => some 120) 2000 0).2.msg[1023]? = some 0 ∧
    (device_write ⟨List.replicate 1024 65, 7⟩ (fun _ => some 120) 2000 0).2.msg.length = 1024 := by
  have hp : (device_write ⟨List.replicate 1024 65, 7⟩ (fun _ => some 120) 2000 0).2.pos = 1023 := by
    rw [device_write_pos]; decide
  obtain ⟨-, -, h3, h4⟩ := device_write_invariant ⟨List.replicate 1024 65, 7⟩
    (fun _ => some 120) 2000 0 (List.length_replicate 1024 65)
  rw [hp] at h3
  exact ⟨by rw [device_write_ret]; decide, hp, h3, h4⟩

end CharDriver

/-! ## The character driver: `device_read` -/

theorem head_readIndices (start : Int) (n : Nat) (h : 0 < n) :
    (readIndices start n).head? = some start := by
  rw [List.head?_eq_getElem?]
  simp [readIndices, List.getElem?_range h]

theorem mem_readIndices (start : Int) (n : Nat) (i : Int) :
    i ∈ readIndices start n ↔ ∃ k : Nat, k < n ∧ i = start + (k : Int) := by
  simp only [readIndices, List.mem_map, List.mem_range]
  constructor
  · rintro ⟨k, hk, rfl⟩; exact ⟨k, hk, rfl⟩
  · rintro ⟨k, hk, rfl⟩; exact ⟨k, hk, rfl⟩

namespace CharDriver

/-- C3. For every state of the 1024-byte buffer, every offset `≥ 0` and every
`length`, when the copy to the caller does not fault: if `offset ≥ BUF_LEN` or
`length = 0`, `device_read` returns 0 with no data and leaves the offset
unchanged; otherwise it returns `n = min length (BUF_LEN - offset) ≥ 1` together
with exactly the bytes `msg[offset .. offset + n)` and advances the offset to
`offset + n`. The result does not depend on `pos`. -/
theorem device_read_contract (st : State) (buffer : UserDst) (length : Nat) (offset : Int)
    (hlen : st.msg.length = BUF_LEN) (h0 : 0 ≤ offset)
    (hcopy : copy_to_user buffer (min length (BUF_LEN - offset.toNat)) = 0) :
    ((offset ≥ (BUF_LEN : Int) ∨ length = 0) →
      (device_read st buffer length offset).1.ret = 0 ∧
      (device_read st buffer length offset).1.data = [] ∧
      (device_read st buffer length offset).1.offset = offset) ∧
    (¬ (offset ≥ (BUF_LEN : Int) ∨ length = 0) →
      1 ≤ min length (BUF_LEN - offset.toNat) ∧
      (device_read st buffer length offset).1.ret
        = ((min length (BUF_LEN - offset.toNat) : Nat) : Int) ∧
      (device_read st buffer length offset).1.data
        = ((st.msg.drop offset.toNat).take (min length (BUF_LEN - offset.toNat))).map some ∧
      (device_read st buffer length offset).1.data.length
        = min length (BUF_LEN - offset.toNat) ∧
      (device_read st buffer length offset).1.offset
        = offset + ((min length (BUF_LEN - offset.toNat) : Nat) : Int)) ∧
    (∀ p : Int, (device_read { st with pos := p } buffer length offset).1
      = (device_read st buffer length offset).1) := by
  refine ⟨?_, ?_, ?_⟩
  rotate_left 2
  · intro p
    unfold device_read
    dsimp only
    split_ifs <;> rfl
  · intro h
    rw [device_read_eof st buffer length offset h]
    exact ⟨rfl, rfl, rfl⟩
  · intro h
    have h1 : offset < (BUF_LEN : Int) := by omega
    have hl : length ≠ 0 := by omega
    have h1' : offset < 1024 := h1
    rw [device_read_ok st buffer length offset h0 h1 hl hcopy]
    refine ⟨by unfold BUF_LEN; omega, rfl, ?_, ?_, rfl⟩
    · exact map_msgAt_readIndices _ _ _ h0 (by rw [hlen]; omega)
    · simp only [List.length_map, readIndices_length]

/-- C3, concrete scenarios: `read(cursor = 1024, length = 5)` returns 0 and no
data; `read(cursor = 0, length = 10)` returns 10 bytes and moves the cursor to 10. -/
theorem device_read_contract_witness :
    ((device_read ⟨List.replicate 1024 0, 0⟩ ⟨16⟩ 5 1024).1.ret = 0 ∧
     (device_read ⟨List.replicate 1024 0, 0⟩ ⟨16⟩ 5 1024).1.data = []) ∧
    ((device_read ⟨List.replicate 1024 0, 0⟩ ⟨16⟩ 10 0).1.ret = 10 ∧
     (device_read ⟨List.replicate 1024 0, 0⟩ ⟨16⟩ 10 0).1.data.length = 10 ∧
     (device_read ⟨List.replicate 1024 0, 0⟩ ⟨16⟩ 10 0).1.offset = 10) := by
  constructor
  · have h := (device_read_contract ⟨List.replicate 1024 0, 0⟩ ⟨16⟩ 5 1024
      (List.length_replicate 1024 0) (by decide) (by decide)).1 (Or.inl (by decide))
    exact ⟨h.1, h.2.1⟩
  · have h := (device_read_contract ⟨List.replicate 1024 0, 0⟩ ⟨16⟩ 10 0
      (List.length_replicate 1024 0) (by decide) (by decide)).2.1 (by decide)
    obtain ⟨-, h2, -, h4, h5⟩ := h
    refine ⟨?_, ?_, ?_⟩
    · rw [h2]; decide
    · rw [h4]; decide
    · rw [h5]; decide

/-- C7, as stated, fails at a negative offset: at `*offset = -1` with
`length = 2000`, `device_read` returns 1025 (more than `BUF_LEN`) and the first
index it reads is `-1`, a byte located before the array `msg`. -/
theorem device_read_negative_offset_escapes :
    (device_read ⟨List.replicate 1024 0, 0⟩ ⟨2000⟩ 2000 (-1)).1.ret = 1025 ∧
    (-1 : Int) ∈ (device_read ⟨List.replicate 1024 0, 0⟩ ⟨2000⟩ 2000 (-1)).1.idx ∧
    (device_read ⟨List.replicate 1024 0, 0⟩ ⟨2000⟩ 2000 (-1)).1.data.head? = some none ∧
    ¬ ((device_read ⟨List.replicate 1024 0, 0⟩ ⟨2000⟩ 2000 (-1)).1.ret ≤ (BUF_LEN : Int) ∧
       ∀ i ∈ (device_read ⟨List.replicate 1024 0, 0⟩ ⟨2000⟩ 2000 (-1)).1.idx,
         0 ≤ i ∧ i < (BUF_LEN : Int)) := by
  have e : device_read ⟨List.replicate 1024 0, 0⟩ ⟨2000⟩ 2000 (-1)
      = ({ ret := 1025, offset := 1024, idx := readIndices (-1) 1025,
           data := (readIndices (-1) 1025).map (msgAt (List.replicate 1024 0)) },
         ⟨List.replicate 1024 0, 0⟩) := by
    have hr : wrapU64 ((BUF_LEN : Int) - (-1)) = 1025 := by decide
    have hc : ¬ ((-1 : Int) ≥ (BUF_LEN : Int) ∨ (2000 : Nat) = 0) := by decide
    have hk : copy_to_user ⟨2000⟩ 1025 = 0 := by decide
    have hw1 : wrapS64 ((1025 : Nat) : Int) = 1025 := by decide
    have hw2 : wrapS64 (-1 + ((1025 : Nat) : Int)) = 1024 := by decide
    unfold device_read
    simp only [if_neg hc, hr, show (2000 : Nat) > 1025 from by decide, if_true, hk, ne_eq,
      not_true_eq_false, if_false, hw1, hw2]
  have hm : (-1 : Int) ∈ readIndices (-1) 1025 :=
    (mem_readIndices _ _ _).2 ⟨0, by decide, by decide⟩
  rw [e]
  dsimp only
  refine ⟨rfl, hm, ?_, ?_⟩
  · rw [List.head?_map, head_readIndices _ _ (by decide)]
    rfl
  · intro h
    exact absurd h.1 (by decide)

/-- C7, amended. For every state of the 1024-byte buffer, every offset `≥ 0`,
every `length` and every user buffer (faulting or not), `device_read` returns at
most `BUF_LEN`, stores at most `BUF_LEN` bytes in the user buffer, and every
index of `msg` it reads lies in `[0, BUF_LEN)`, so every byte it delivers is a
byte of `msg`. -/
theorem device_read_bounded (st : State) (buffer : UserDst) (length : Nat) (offset : Int)
    (hlen : st.msg.length = BUF_LEN) (h0 : 0 ≤ offset) :
    (device_read st buffer length offset).1.ret ≤ (BUF_LEN : Int) ∧
    (device_read st buffer length offset).1.data.length ≤ BUF_LEN ∧
    (device_read st buffer length offset).1.idx.length
      = (device_read st buffer length offset).1.data.length ∧
    (∀ i ∈ (device_read st buffer length offset).1.idx, 0 ≤ i ∧ i < (BUF_LEN : Int)) ∧
    (∀ d ∈ (device_read st buffer length offset).1.data, ∃ b ∈ st.msg, d = some b) := by
  by_cases h : offset ≥ (BUF_LEN : Int) ∨ length = 0
  · rw [device_read_eof st buffer length offset h]
    refine ⟨?_, by simp, rfl, by simp, by simp⟩
    show (0 : Int) ≤ (BUF_LEN : Int)
    decide
  · have h1 : offset < (BUF_LEN : Int) := by omega
    have hl : length ≠ 0 := by omega
    have h1' : offset < 1024 := h1
    have key : ∀ m : Nat, m ≤ min length (BUF_LEN - offset.toNat) →
        ((readIndices offset m).map (msgAt st.msg)).length ≤ BUF_LEN ∧
        (readIndices offset m).length = ((readIndices offset m).map (msgAt st.msg)).length ∧
        (∀ i ∈ readIndices offset m, 0 ≤ i ∧ i < (BUF_LEN : Int)) ∧
        (∀ d ∈ (readIndices offset m).map (msgAt st.msg), ∃ b ∈ st.msg, d = some b) := by
      intro m hm
      have hm' : m ≤ 1024 - offset.toNat := by unfold BUF_LEN at hm; omega
      refine ⟨?_, by simp, ?_, ?_⟩
      · simp only [List.length_map, readIndices_length]; unfold BUF_LEN; omega
      · intro i hi
        obtain ⟨k, hk, rfl⟩ := (mem_readIndices _ _ _).1 hi
        unfold BUF_LEN; omega
      · intro d hd
        rw [map_msgAt_readIndices _ _ _ h0 (by rw [hlen]; unfold BUF_LEN; omega)] at hd
        obtain ⟨b, hb, rfl⟩ := List.mem_map.1 hd
        exact ⟨b, List.mem_of_mem_drop (List.mem_of_mem_take hb), rfl⟩
    by_cases hcopy : copy_to_user buffer (min length (BUF_LEN - offset.toNat)) = 0
    · rw [device_read_ok st buffer length offset h0 h1 hl hcopy]
      refine ⟨?_, key _ (le_refl _)⟩
      show ((min length (BUF_LEN - offset.toNat) : Nat) : Int) ≤ (BUF_LEN : Int)
      unfold BUF_LEN; omega
    · rw [device_read_fault st buffer length offset h0 h1 hl hcopy]
      refine ⟨?_, key _ (Nat.sub_le _ _)⟩
      show -EFAULT ≤ (BUF_LEN : Int)
      decide

/-- C7 amended, concrete scenario: a read of 5000 bytes at offset 1000 delivers
24 bytes, all of them from indices inside the buffer. -/
theorem device_read_bounded_witness :
    (device_read ⟨List.replicate 1024 0, 0⟩ ⟨5000⟩ 5000 1000).1.ret ≤ 1024 ∧
    (device_read ⟨List.replicate 1024 0, 0⟩ ⟨5000⟩ 5000 1000).1.data.length ≤ 1024 ∧
    (∀ i ∈ (device_read ⟨List.replicate 1024 0, 0⟩ ⟨5000⟩ 5000 1000).1.idx,
      0 ≤ i ∧ i < (1024 : Int)) := by
  have h := device_read_bounded ⟨List.replicate 1024 0, 0⟩ ⟨5000⟩ 5000 1000
    (List.length_replicate 1024 0) (by decide)
  exact ⟨h.1, h.2.1, h.2.2.2.1⟩

end CharDriver

/-! ## The character driver: sequences of calls -/

namespace CharDriver

/-- C5. Sequential reads partition the buffer: for every content of the
1024-byte buffer and every first length `a ≥ 1`, a fault-free read at offset 0
returns `n1` bytes and moves the offset to `n1`; a second fault-free read at
that offset with any `b ≥ BUF_LEN - n1` returns `n2` bytes with
`n1 + n2 = BUF_LEN`, and the two results concatenated are the whole content of
`msg`; a third read at the resulting offset returns 0 and no data. The reads
leave `msg` and `pos` unchanged. -/
theorem sequential_reads_partition (st : State) (b1 b2 b3 : UserDst) (a b c : Nat)
    (r1 r2 r3 : ReadOut × State)
    (hlen : st.msg.length = BUF_LEN) (ha : 1 ≤ a)
    (h1 : r1 = device_read st b1 a 0)
    (hb : (BUF_LEN : Int) - r1.1.ret ≤ (b : Int))
    (h2 : r2 = device_read r1.2 b2 b r1.1.offset)
    (h3 : r3 = device_read r2.2 b3 c r2.1.offset)
    (hc1 : copy_to_user b1 (min a BUF_LEN) = 0)
    (hc2 : copy_to_user b2 (min b (BUF_LEN - min a BUF_LEN)) = 0) :
    r1.1.ret = ((min a BUF_LEN : Nat) : Int) ∧ r1.1.offset = r1.1.ret ∧
    r1.1.data.length = min a BUF_LEN ∧
    r1.1.ret + r2.1.ret = (BUF_LEN : Int) ∧
    r1.1.data.length + r2.1.data.length = BUF_LEN ∧
    r1.1.data ++ r2.1.data = st.msg.map some ∧
    r3.1.ret = 0 ∧ r3.1.data = [] ∧
    r1.2 = st ∧ r2.2 = st ∧ r3.2 = st := by
  have hz : (0 : Int).toNat = 0 := rfl
  have e1 : r1 = ({ ret := ((min a BUF_LEN : Nat) : Int),
                    offset := ((min a BUF_LEN : Nat) : Int),
                    idx := readIndices 0 (min a BUF_LEN),
                    data := ((st.msg.drop 0).take (min a BUF_LEN)).map some }, st) := by
    rw [h1, device_read_ok st b1 a 0 (le_refl _) (by decide) (by omega)
      (by rw [hz, Nat.sub_zero]; exact hc1)]
    rw [hz, Nat.sub_zero, zero_add,
      map_msgAt_readIndices st.msg 0 (min a BUF_LEN) (le_refl _) (by rw [hz, hlen]; omega), hz]
  subst e1
  dsimp only at hb h2 ⊢
  have hn : ((min a BUF_LEN : Nat) : Int).toNat = min a BUF_LEN := Int.toNat_ofNat _
  by_cases hfull : BUF_LEN ≤ a
  · -- the first read already delivers the whole buffer
    have hmin : min a BUF_LEN = BUF_LEN := by omega
    rw [hmin] at h2 ⊢
    have e2 : r2 = ({ ret := 0, offset := (BUF_LEN : Int), idx := [], data := [] }, st) := by
      rw [h2, device_read_eof st b2 b _ (Or.inl (le_refl _))]
    subst e2
    dsimp only at h3 ⊢
    have e3 : r3 = ({ ret := 0, offset := (BUF_LEN : Int), idx := [], data := [] }, st) := by
      rw [h3, device_read_eof st b3 c _ (Or.inl (le_refl _))]
    subst e3
    dsimp only
    have htake : List.take BUF_LEN st.msg = st.msg := List.take_of_length_le (by omega)
    refine ⟨rfl, rfl, ?_, by simp, ?_, ?_, rfl, rfl, rfl, rfl, rfl⟩
    · simp [htake, hlen]
    · simp [htake, hlen]
    · simp [htake]
  · -- the first read delivers `a` bytes, the second the remaining ones
    have hmin : min a BUF_LEN = a := by omega
    rw [hmin] at h2 hb hc2 ⊢
    have hb' : BUF_LEN - a ≤ b := by omega
    have hmin2 : min b (BUF_LEN - a) = BUF_LEN - a := by omega
    have e2 : r2 = ({ ret := ((BUF_LEN - a : Nat) : Int),
                      offset := (BUF_LEN : Int),
                      idx := readIndices (a : Int) (BUF_LEN - a),
                      data := ((st.msg.drop a).take (BUF_LEN - a)).map some }, st) := by
      rw [h2, device_read_ok st b2 b (a : Int) (by omega) (by omega) (by omega)
        (by rw [Int.toNat_ofNat, hmin2]; rw [hmin2] at hc2; exact hc2)]
      rw [Int.toNat_ofNat, hmin2,
        map_msgAt_readIndices st.msg (a : Int) (BUF_LEN - a) (by omega)
          (by rw [Int.toNat_ofNat, hlen]; omega), Int.toNat_ofNat]
      congr 2
      omega
    subst e2
    dsimp only at h3 ⊢
    have e3 : r3 = ({ ret := 0, offset := (BUF_LEN : Int), idx := [], data := [] }, st) := by
      rw [h3, device_read_eof st b3 c _ (Or.inl (le_refl _))]
    subst e3
    dsimp only
    have htake : List.take (BUF_LEN - a) (List.drop a st.msg) = List.drop a st.msg :=
      List.take_of_length_le (by simp [hlen])
    refine ⟨rfl, rfl, ?_, by omega, ?_, ?_, rfl, rfl, rfl, rfl, rfl⟩
    · simp [hlen]; omega
    · simp [htake, hlen]; omega
    · rw [htake, List.drop_zero, ← List.map_append, List.take_append_drop]

/-- C5, concrete scenario: reading 100 bytes and then 2000 bytes from a
buffer of 1024 bytes delivers 100 and 924 bytes that together are the buffer;
a third read returns 0. -/
theorem sequential_reads_partition_witness :
    (device_read ⟨List.replicate 1024 65, 0⟩ ⟨4096⟩ 100 0).1.ret = 100 ∧
    (device_read ⟨List.replicate 1024 65, 0⟩ ⟨4096⟩ 100 0).1.ret
      + (device_read (device_read ⟨List.replicate 1024 65, 0⟩ ⟨4096⟩ 100 0).2 ⟨4096⟩ 2000
          (device_read ⟨List.replicate 1024 65, 0⟩ ⟨4096⟩ 100 0).1.offset).1.ret = 1024 ∧
    (device_read ⟨List.replicate 1024 65, 0⟩ ⟨4096⟩ 100 0).1.data
      ++ (device_read (device_read ⟨List.replicate 1024 65, 0⟩ ⟨4096⟩ 100 0).2 ⟨4096⟩ 2000
          (device_read ⟨List.replicate 1024 65, 0⟩ ⟨4096⟩ 100 0).1.offset).1.data
      = (List.replicate 1024 65).map some := by
  have hret : (device_read ⟨List.replicate 1024 65, 0⟩ ⟨4096⟩ 100 0).1.ret = 100 := by
    rw [device_read_ok _ _ _ _ (by decide) (by decide) (by decide) (by decide)]
    decide
  have h := sequential_reads_partition ⟨List.replicate 1024 65, 0⟩ ⟨4096⟩ ⟨4096⟩ ⟨4096⟩
    100 2000 7 _ _ _ (List.length_replicate 1024 65) (by decide) rfl
    (by rw [hret]; decide) rfl rfl (by decide) (by decide)
  exact ⟨hret, h.2.2.2.1, h.2.2.2.2.2.1⟩

end CharDriver

namespace CharDriver

/-- What `get_user` stores when the user memory holds the bytes `P`. -/
theorem get_user_userOf (P : List UInt8) (j : Nat) (hj : j < P.length) :
    (get_user (userOf P) j).2 = P[j] := by
  unfold get_user userOf
  rw [List.getElem?_eq_getElem hj]

/-- C4. Round trip with stale-tail exposure: for every prior content `S0` of
the 1024-byte buffer and every payload `P` shorter than `BUF_LEN`, writing `P`
with `length = len P` and then reading from offset 0 with any length
`L ≥ BUF_LEN` (without fault) returns exactly `BUF_LEN` bytes `D` with
`D[0 .. len P) = P`, `D[len P] = 0` and `D[i] = S0[i]` for `len P < i < BUF_LEN`. -/
theorem write_then_read_round_trip (S0 : List UInt8) (pos0 : Int) (P : List UInt8) (L : Nat)
    (woff : Int) (dst : UserDst) (w : Int × State) (r : ReadOut × State)
    (hS : S0.length = BUF_LEN) (hP : P.length < BUF_LEN) (hL : BUF_LEN ≤ L)
    (hdst : copy_to_user dst BUF_LEN = 0)
    (hw : w = device_write ⟨S0, pos0⟩ (userOf P) P.length woff)
    (hr : r = device_read w.2 dst L 0) :
    w.1 = (P.length : Int) ∧
    r.1.ret = (BUF_LEN : Int) ∧
    r.1.data.length = BUF_LEN ∧
    r.1.data.take P.length = P.map some ∧
    r.1.data[P.length]? = some (some 0) ∧
    (∀ i, P.length < i → i < BUF_LEN → r.1.data[i]? = some (S0[i]?)) := by
  have hP' : P.length < 1024 := hP
  have hmin : min P.length (BUF_LEN - 1) = P.length := by unfold BUF_LEN; omega
  have hwl : w.2.msg.length = BUF_LEN := by rw [hw, device_write_length]; exact hS
  have hz : (0 : Int).toNat = 0 := rfl
  have hminL : min L BUF_LEN = BUF_LEN := by omega
  have hget : ∀ j, j < BUF_LEN → w.2.msg[j]? =
      if j = P.length then some 0 else if j < P.length then some (get_user (userOf P) j).2
      else S0[j]? := by
    intro j hj
    rw [hw, device_write_getElem ⟨S0, pos0⟩ (userOf P) P.length woff j (by rw [hS]; exact hj),
      hmin]
  have hd : r.1.data = w.2.msg.map some := by
    rw [hr, device_read_ok w.2 dst L 0 (le_refl _) (by decide) (by omega)
      (by rw [hz, Nat.sub_zero, hminL]; exact hdst)]
    dsimp only
    rw [hz, Nat.sub_zero, hminL,
      map_msgAt_readIndices w.2.msg 0 BUF_LEN (le_refl _) (by rw [hz, hwl]; omega), hz,
      List.drop_zero, List.take_of_length_le (by omega)]
  have hret : r.1.ret = (BUF_LEN : Int) := by
    rw [hr, device_read_ok w.2 dst L 0 (le_refl _) (by decide) (by omega)
      (by rw [hz, Nat.sub_zero, hminL]; exact hdst)]
    dsimp only
    rw [hz, Nat.sub_zero, hminL]
  refine ⟨?_, hret, by rw [hd, List.length_map, hwl], ?_, ?_, ?_⟩
  · rw [hw, device_write_ret, hmin]
  · apply List.ext_getElem?
    intro i
    by_cases hi : i < P.length
    · rw [List.getElem?_take_of_lt hi, hd, List.getElem?_map, hget i (by unfold BUF_LEN; omega),
        if_neg (by omega), if_pos hi, get_user_userOf P i hi, List.getElem?_map,
        List.getElem?_eq_getElem hi]
    · rw [List.getElem?_take_eq_none (by omega), List.getElem?_eq_none (by simp; omega)]
  · rw [hd, List.getElem?_map, hget _ hP, if_pos rfl]
    rfl
  · intro i hi1 hi2
    rw [hd, List.getElem?_map, hget i hi2, if_neg (by omega), if_neg (by omega),
      List.getElem?_eq_getElem (by rw [hS]; exact hi2)]
    rfl

/-- C4, concrete scenario: writing "hello" over a buffer full of 'A' and
reading 2000 bytes from offset 0 returns 1024 bytes: "hello", a null byte, and
the stale 'A' at index 6. -/
theorem write_then_read_round_trip_witness :
    (device_read (device_write ⟨List.replicate 1024 65, 9⟩ (userOf [104, 101, 108, 108, 111])
      5 0).2 ⟨4096⟩ 2000 0).1.ret = 1024 ∧
    (device_read (device_write ⟨List.replicate 1024 65, 9⟩ (userOf [104, 101, 108, 108, 111])
      5 0).2 ⟨4096⟩ 2000 0).1.data.take 5
      = [some 104, some 101, some 108, some 108, some 111] ∧
    (device_read (device_write ⟨List.replicate 1024 65, 9⟩ (userOf [104, 101, 108, 108, 111])
      5 0).2 ⟨4096⟩ 2000 0).1.data[5]? = some (some 0) ∧
    (device_read (device_write ⟨List.replicate 1024 65, 9⟩ (userOf [104, 101, 108, 108, 111])
      5 0).2 ⟨4096⟩ 2000 0).1.data[6]? = some (some 65) := by
  have h := write_then_read_round_trip (List.replicate 1024 65) 9 [104, 101, 108, 108, 111]
    2000 0 ⟨4096⟩ _ _ (List.length_replicate 1024 65) (by decide) (by decide) (by decide)
    rfl rfl
  refine ⟨h.2.1, h.2.2.2.1, h.2.2.2.2.1, ?_⟩
  have h6 := h.2.2.2.2.2 6 (by decide) (by decide)
  exact h6.trans (by rw [List.getElem?_replicate]; rfl)

/-- C6, the failing input: a `device_write` of 5 bytes from a user buffer whose
every byte faults. `get_user` reports `-EFAULT`, yet `device_write` returns the
byte count 5 instead of `-EFAULT`, moves `pos` from 3 to 5 and overwrites
`msg[0]` (previously 'A') with a null byte. -/
theorem device_write_ignores_fault :
    (get_user (fun _ => none) 0).1 = -EFAULT ∧
    (device_write ⟨List.replicate 1024 65, 3⟩ (fun _ => none) 5 0).1 = 5 ∧
    (device_write ⟨List.replicate 1024 65, 3⟩ (fun _ => none) 5 0).1 ≠ -EFAULT ∧
    (device_write ⟨List.replicate 1024 65, 3⟩ (fun _ => none) 5 0).2.pos = 5 ∧
    (List.replicate 1024 (65 : UInt8))[0]? = some 65 ∧
    (device_write ⟨List.replicate 1024 65, 3⟩ (fun _ => none) 5 0).2.msg[0]? = some 0 := by
  have hmin : min 5 (BUF_LEN - 1) = 5 := by decide
  refine ⟨rfl, ?_, ?_, ?_, ?_, ?_⟩
  · rw [device_write_ret, hmin]; rfl
  · rw [device_write_ret, hmin]; decide
  · rw [device_write_pos, hmin]; rfl
  · rw [List.getElem?_replicate]; rfl
  · rw [device_write_getElem _ _ _ _ 0 (by rw [List.length_replicate]; decide), hmin,
      if_neg (by decide), if_pos (by decide)]
    rfl

/-- C8, the failing input: `alloc_chrdev_region` fails with `-EBUSY` (-16), and
`driver_init` of the character driver still returns 0, whatever the
registration calls returned. -/
theorem driver_init_discards_registration_failure :
    driver_init ⟨-16, 0, 0, 0⟩ = 0 ∧ ∀ calls : InitCalls, driver_init calls = 0 :=
  ⟨rfl, fun _ => rfl⟩

end CharDriver

/-! ## The misc driver -/

namespace MiscDriver

theorem strlen_le_length (l : List UInt8) : strlen l ≤ l.length := by
  induction l with
  | nil => simp [strlen]
  | cons c cs ih =>
    simp only [strlen, List.length_cons]
    split <;> omega

/-- When the array holds a null byte, `strlen` stops inside the array. -/
theorem strlen_lt_of_mem (l : List UInt8) (h : (0 : UInt8) ∈ l) : strlen l < l.length := by
  induction l with
  | nil => cases h
  | cons c cs ih =>
    simp only [strlen, List.length_cons]
    by_cases hc : c = 0
    · rw [if_pos hc]; omega
    · rw [if_neg hc]
      rcases List.mem_cons.1 h with h0 | h0
      · exact absurd h0.symm hc
      · have := ih h0; omega

/-- The byte at index `strlen` is the null byte. -/
theorem getElem_strlen (l : List UInt8) (h : (0 : UInt8) ∈ l) : l[strlen l]? = some 0 := by
  induction l with
  | nil => cases h
  | cons c cs ih =>
    simp only [strlen]
    by_cases hc : c = 0
    · rw [if_pos hc, hc, List.getElem?_cons_zero]
    · rw [if_neg hc]
      rcases List.mem_cons.1 h with h0 | h0
      · exact absurd h0.symm hc
      · rw [List.getElem?_cons_succ]; exact ih h0

/-- No byte below index `strlen` is the null byte. -/
theorem getElem_ne_zero_of_lt_strlen (l : List UInt8) :
    ∀ i : Nat, i < strlen l → l[i]? ≠ some 0 := by
  induction l with
  | nil => intro i hi; simp [strlen] at hi
  | cons c cs ih =>
    intro i hi
    simp only [strlen] at hi
    by_cases hc : c = 0
    · rw [if_pos hc] at hi; omega
    · rw [if_neg hc] at hi
      cases i with
      | zero =>
        rw [List.getElem?_cons_zero]
        intro h
        exact hc (Option.some.inj h)
      | succ j =>
        rw [List.getElem?_cons_succ]
        exact ih j (by omega)

theorem readableFrom_length_le (src : UserSrc) (n : Nat) :
    ∀ i : Nat, (readableFrom src i n).length ≤ n := by
  induction n with
  | zero => intro i; simp [readableFrom]
  | succ n ih =>
    intro i
    simp only [readableFrom]
    split
    · simp only [List.length_cons]; have := ih (i + 1); omega
    · simp

/-- The array after `copy_from_user` of at most `MSG_SIZE - 1` bytes has the
length of the array before. -/
theorem copy_from_user_length (msg : List UInt8) (buf : UserSrc) (n : Nat)
    (h : msg.length = MSG_SIZE) (hn : n ≤ MSG_SIZE - 1) :
    (copy_from_user msg buf n).2.length = MSG_SIZE := by
  have := readableFrom_length_le buf n 0
  simp only [copy_from_user, List.length_append, List.length_replicate, List.length_drop, h]
  unfold MSG_SIZE at hn ⊢
  omega

/-- The count `misc_write` works with is at most `MSG_SIZE - 1`. -/
theorem misc_write_clamp (count : Nat) :
    (if count > MSG_SIZE - 1 then MSG_SIZE - 1 else count) ≤ MSG_SIZE - 1 := by
  split <;> omega

/-- The array keeps its length across `misc_write`. -/
theorem misc_write_length (msg : List UInt8) (buf : UserSrc) (count : Nat) (ppos : Int)
    (h : msg.length = MSG_SIZE) : (misc_write msg buf count ppos).msg.length = MSG_SIZE := by
  have hc := misc_write_clamp count
  unfold misc_write
  dsimp only
  generalize (if count > MSG_SIZE - 1 then MSG_SIZE - 1 else count) = n at hc ⊢
  by_cases hf : (copy_from_user msg buf n).1 ≠ 0
  · rw [if_pos hf]; exact copy_from_user_length msg buf n h hc
  · rw [if_neg hf, List.length_set]; exact copy_from_user_length msg buf n h hc

/-- After `misc_write`, faulting or not, the array holds a null byte. -/
theorem misc_write_mem_zero (msg : List UInt8) (buf : UserSrc) (count : Nat) (ppos : Int)
    (h : msg.length = MSG_SIZE) : (0 : UInt8) ∈ (misc_write msg buf count ppos).msg := by
  have hc := misc_write_clamp count
  unfold misc_write
  dsimp only
  generalize (if count > MSG_SIZE - 1 then MSG_SIZE - 1 else count) = n at hc ⊢
  by_cases hf : (copy_from_user msg buf n).1 ≠ 0
  · rw [if_pos hf]
    simp only [copy_from_user] at hf ⊢
    exact List.mem_append_left _ (List.mem_append_right _ (List.mem_replicate.2 ⟨hf, rfl⟩))
  · rw [if_neg hf]
    have hl := copy_from_user_length msg buf n h hc
    exact List.getElem?_mem (List.getElem?_set_self (by rw [hl]; unfold MSG_SIZE at hc ⊢; omega))

/-- Every reachable content of `msg` has `MSG_SIZE` bytes and holds a null byte. -/
theorem reachable_invariant (msg : List UInt8) (h : Reachable msg) :
    msg.length = MSG_SIZE ∧ (0 : UInt8) ∈ msg := by
  induction h with
  | init =>
    constructor
    · unfold initMsg
      rw [List.length_append, List.length_replicate]
      rfl
    · exact List.mem_append_right _ (List.mem_replicate.2 ⟨by decide, rfl⟩)
  | write m buf count ppos _ ih =>
    exact ⟨misc_write_length m buf count ppos ih.1, misc_write_mem_zero m buf count ppos ih.1⟩

end MiscDriver

namespace MiscDriver

/-- The initial content of `msg` is the 24-character string. -/
theorem strlen_initMsg : strlen initMsg = 24 := by
  decide

/-- At or past the end of the string, `misc_read` with a non-zero count
returns 0, delivers nothing and resets the offset to 0. -/
theorem misc_read_eof (msg : List UInt8) (buf : UserDst) (count : Nat) (p : Int)
    (hs : strlen msg < 1024) (hcount : count ≠ 0) (h : (strlen msg : Int) ≤ p) :
    misc_read msg buf count p = { ret := 0, offset := 0, idx := [], data := [] } := by
  have hw : wrapS32 (strlen msg : Int) = (strlen msg : Int) :=
    wrapS32_of_small _ (by omega) (by omega)
  have hge : p ≥ (strlen msg : Int) := h
  unfold misc_read
  simp only [if_neg hcount, hw, if_pos hge]

/-- A fault-free `misc_read` with a non-zero count at an offset inside the string. -/
theorem misc_read_ok (msg : List UInt8) (buf : UserDst) (count : Nat) (p : Int)
    (hs : strlen msg < 1024) (hcount : count ≠ 0) (hp : 0 ≤ p) (h : p < (strlen msg : Int))
    (hcopy : copy_to_user buf (strlen msg - p.toNat) = 0) :
    misc_read msg buf count p
      = { ret := (strlen msg : Int) - p, offset := (strlen msg : Int),
          idx := readIndices p (strlen msg - p.toNat),
          data := (readIndices p (strlen msg - p.toNat)).map (msgAt msg) } := by
  have hw : wrapS32 (strlen msg : Int) = (strlen msg : Int) :=
    wrapS32_of_small _ (by omega) (by omega)
  have hge : ¬ p ≥ (strlen msg : Int) := by omega
  have hb : wrapU64 ((strlen msg : Int) - p) = strlen msg - p.toNat := by
    rw [wrapU64_of_small _ (by omega) (by omega)]
    omega
  have e1 : ((strlen msg - p.toNat : Nat) : Int) = (strlen msg : Int) - p := by omega
  have e2 : p + ((strlen msg : Int) - p) = (strlen msg : Int) := by omega
  unfold misc_read
  simp only [if_neg hcount, hw, if_neg hge, hb, hcopy, ne_eq, not_true_eq_false, if_false]
  rw [e1, e2, wrapS64_of_small _ (by omega) (by omega), wrapS64_of_small _ (by omega) (by omega)]

/-- C9. For every content of `msg` reachable by `misc_write` from the initial
content, every offset `p ≥ 0` and every `count > 0`, with `len = strlen msg` the
index of the first null byte: a fault-free `misc_read` returns 0 with no data
and resets the offset to 0 when `p ≥ len`, and otherwise returns exactly the
bytes `msg[p .. len)` and sets the offset to `len`; every index it reads is
below `len` and no byte it delivers is the null byte. -/
theorem misc_read_up_to_strlen (msg : List UInt8) (buf : UserDst) (count : Nat) (p : Int)
    (hreach : Reachable msg) (hp : 0 ≤ p) (hcount : 0 < count)
    (hcopy : copy_to_user buf (strlen msg - p.toNat) = 0) :
    (strlen msg < MSG_SIZE ∧ msg[strlen msg]? = some 0 ∧
      ∀ i : Nat, i < strlen msg → msg[i]? ≠ some 0) ∧
    ((strlen msg : Int) ≤ p →
      (misc_read msg buf count p).ret = 0 ∧
      (misc_read msg buf count p).data = [] ∧
      (misc_read msg buf count p).offset = 0) ∧
    (p < (strlen msg : Int) →
      (misc_read msg buf count p).ret = (strlen msg : Int) - p ∧
      (misc_read msg buf count p).data
        = ((msg.drop p.toNat).take (strlen msg - p.toNat)).map some ∧
      (misc_read msg buf count p).data.length = strlen msg - p.toNat ∧
      (misc_read msg buf count p).offset = (strlen msg : Int) ∧
      (∀ i ∈ (misc_read msg buf count p).idx, p ≤ i ∧ i < (strlen msg : Int)) ∧
      (∀ d ∈ (misc_read msg buf count p).data, d ≠ some 0)) := by
  obtain ⟨hlen, hzero⟩ := reachable_invariant msg hreach
  have hs : strlen msg < msg.length := strlen_lt_of_mem msg hzero
  have hs' : strlen msg < 1024 := by rw [hlen] at hs; exact hs
  have hc0 : count ≠ 0 := by omega
  refine ⟨⟨hs', getElem_strlen msg hzero, getElem_ne_zero_of_lt_strlen msg⟩, ?_, ?_⟩
  · intro h
    rw [misc_read_eof msg buf count p hs' hc0 h]
    exact ⟨rfl, rfl, rfl⟩
  · intro h
    rw [misc_read_ok msg buf count p hs' hc0 hp h hcopy]
    dsimp only
    refine ⟨rfl, map_msgAt_readIndices msg p _ hp (by omega), ?_, rfl, ?_, ?_⟩
    · rw [List.length_map, readIndices_length]
    · intro i hi
      obtain ⟨k, hk, rfl⟩ := (mem_readIndices _ _ _).1 hi
      omega
    · intro d hd
      obtain ⟨i, hi, rfl⟩ := List.mem_map.1 hd
      obtain ⟨k, hk, rfl⟩ := (mem_readIndices _ _ _).1 hi
      have hn : ¬ (p + (k : Int) < 0) := by omega
      unfold msgAt
      rw [if_neg hn]
      exact getElem_ne_zero_of_lt_strlen msg _ (by omega)

/-- C9, concrete scenario: on the initial content a read of 100 bytes at offset 0
returns the 24 characters of the string and moves the offset to 24; a read at
offset 24 returns 0 and resets the offset to 0. -/
theorem misc_read_up_to_strlen_witness :
    ((misc_read initMsg ⟨100⟩ 100 0).ret = 24 ∧
     (misc_read initMsg ⟨100⟩ 100 0).data.length = 24 ∧
     (misc_read initMsg ⟨100⟩ 100 0).offset = 24) ∧
    ((misc_read initMsg ⟨100⟩ 100 24).ret = 0 ∧
     (misc_read initMsg ⟨100⟩ 100 24).offset = 0) := by
  constructor
  · have h := (misc_read_up_to_strlen initMsg ⟨100⟩ 100 0 Reachable.init (by decide)
      (by decide) (by rw [strlen_initMsg]; decide)).2.2 (by rw [strlen_initMsg]; decide)
    rw [strlen_initMsg] at h
    exact ⟨h.1, h.2.2.1, h.2.2.2.1⟩
  · have h := (misc_read_up_to_strlen initMsg ⟨100⟩ 100 24 Reachable.init (by decide)
      (by decide) (by rw [strlen_initMsg]; decide)).2.1 (by rw [strlen_initMsg]; decide)
    exact ⟨h.1, h.2.2⟩

/-- C10, the failing input: on the initial content, a `misc_read` with
`count = 1` at offset 0 copies 24 bytes to the caller's buffer and returns 24,
more than the requested count. -/
theorem misc_read_exceeds_count :
    (misc_read initMsg ⟨4096⟩ 1 0).ret = 24 ∧
    (misc_read initMsg ⟨4096⟩ 1 0).data.length = 24 ∧
    ¬ ((misc_read initMsg ⟨4096⟩ 1 0).ret ≤ ((1 : Nat) : Int)) := by
  have e := misc_read_ok initMsg ⟨4096⟩ 1 0 (by rw [strlen_initMsg]; decide) (by decide)
    (by decide) (by rw [strlen_initMsg]; decide) (by rw [strlen_initMsg]; decide)
  rw [strlen_initMsg] at e
  rw [e]
  dsimp only
  refine ⟨by decide, ?_, by decide⟩
  rw [List.length_map, readIndices_length]
  decide

/-- The misc driver propagates a registration failure: `misc_init` returns the error code of a failed
`misc_register` and returns 0 only when registration succeeded. -/
theorem misc_init_propagates (err : Int) :
    (err ≠ 0 → misc_init err = err ∧ misc_init err ≠ 0) ∧ (misc_init err = 0 ↔ err = 0) := by
  unfold misc_init
  by_cases h : err = 0
  · simp [h]
  · simp [h]

end MiscDriver
